import Mathlib

/-!
Verification development for the TWStockBot watch-store and alert engine
(src/app.py). The Python program keeps a module-level dict

  watches : user_id -> (stock_id -> {base_price, up_threshold, down_threshold})

mutated by the LINE message handler (handle_message) and read/re-based by a
background polling loop (alert_loop). Because the alert loop takes a SHALLOW
copy (dict(watches)) of the outer dict, the aliasing structure of the Python
heap is observable: inner per-user dicts and per-stock info dicts are shared
by reference between the live store and the copy. We therefore embed the
store with an explicit heap: the outer dict maps user ids to references to
inner dicts, inner dicts map stock ids to references to entry dicts, and the
heap maps references to contents. Dict insertion (d[k] = v) replaces in
place or appends, deletion (del d[k]) removes the key; both are modelled on
association lists. Prices (Python floats) are modelled as rationals, so the
threshold arithmetic base * 1.05 and base * 0.95 is exact.
-/

set_option autoImplicit false

namespace TWStockBot

variable {α : Type} {β : Type}

/-- Association-list lookup, modelling Python `d[k]` / `d.get(k)`. -/
def alookup [DecidableEq α] (k : α) : List (α × β) → Option β
  | [] => none
  | (k', v) :: rest => if k = k' then some v else alookup k rest

/-- Association-list insertion, modelling Python `d[k] = v`: replace the
binding in place if the key is present, otherwise append it. -/
def dinsert [DecidableEq α] (k : α) (v : β) : List (α × β) → List (α × β)
  | [] => [(k, v)]
  | (k', v') :: rest => if k = k' then (k, v) :: rest else (k', v') :: dinsert k v rest

/-- Association-list deletion, modelling Python `del d[k]` (first binding). -/
def ddel [DecidableEq α] (k : α) : List (α × β) → List (α × β)
  | [] => []
  | (k', v') :: rest => if k = k' then rest else (k', v') :: ddel k rest

@[simp] theorem alookup_nil [DecidableEq α] (k : α) : alookup k ([] : List (α × β)) = none := rfl

@[simp] theorem alookup_dinsert_self [DecidableEq α] (k : α) (v : β) (l : List (α × β)) :
    alookup k (dinsert k v l) = some v := by
  induction l with
  | nil => simp [alookup, dinsert]
  | cons p rest ih =>
    by_cases h : k = p.1
    · simp [alookup, dinsert, h]
    · simp [alookup, dinsert, h, ih]

@[simp] theorem alookup_dinsert_ne [DecidableEq α] (k k' : α) (v : β) (l : List (α × β))
    (h : k ≠ k') : alookup k (dinsert k' v l) = alookup k l := by
  induction l with
  | nil => simp [alookup, dinsert, h]
  | cons p rest ih =>
    by_cases h' : k' = p.1
    · subst h'
      simp [alookup, dinsert, h]
    · by_cases h'' : k = p.1 <;> simp [alookup, dinsert, h', h'', ih]

@[simp] theorem alookup_ddel_ne [DecidableEq α] (k k' : α) (l : List (α × β))
    (h : k ≠ k') : alookup k (ddel k' l) = alookup k l := by
  induction l with
  | nil => simp [ddel]
  | cons p rest ih =>
    by_cases h' : k' = p.1
    · subst h'
      simp [alookup, ddel, h]
    · by_cases h'' : k = p.1 <;> simp [alookup, ddel, h', h'', ih]

theorem alookup_mem [DecidableEq α] {k : α} {v : β} :
    ∀ {l : List (α × β)}, alookup k l = some v → (k, v) ∈ l := by
  intro l
  induction l with
  | nil => intro h; simp [alookup] at h
  | cons p rest ih =>
    intro h
    by_cases h' : k = p.1
    · subst h'
      simp [alookup] at h
      subst h
      exact List.mem_cons_self _ _
    · simp [alookup, h'] at h
      exact List.mem_cons_of_mem _ (ih h)

theorem mem_dinsert [DecidableEq α] {k : α} {v : β} {q : α × β} :
    ∀ {l : List (α × β)}, q ∈ dinsert k v l → q = (k, v) ∨ q ∈ l := by
  intro l
  induction l with
  | nil => intro h; simp [dinsert] at h; exact Or.inl h
  | cons p rest ih =>
    intro h
    by_cases h' : k = p.1
    · subst h'
      simp [dinsert] at h
      rcases h with h | h
      · exact Or.inl (by simp [h])
      · exact Or.inr (List.mem_cons_of_mem _ h)
    · simp only [dinsert, if_neg h', List.mem_cons] at h
      rcases h with h | h
      · exact Or.inr (by simp [h])
      · rcases ih h with h'' | h''
        · exact Or.inl h''
        · exact Or.inr (List.mem_cons_of_mem _ h'')

/-- If the values of an association list are pairwise distinct, lookups at
distinct keys return distinct values. -/
theorem alookup_snd_nodup_ne [DecidableEq α] {k₁ k₂ : α} {v₁ v₂ : β} :
    ∀ {l : List (α × β)}, (l.map Prod.snd).Nodup →
      alookup k₁ l = some v₁ → alookup k₂ l = some v₂ → k₁ ≠ k₂ → v₁ ≠ v₂ := by
  intro l
  induction l with
  | nil => intro _ h; simp [alookup] at h
  | cons p rest ih =>
    intro hnd h1 h2 hne
    simp only [List.map_cons, List.nodup_cons] at hnd
    by_cases e1 : k₁ = p.1
    · have hv1 : p.2 = v₁ := by simpa [alookup, e1] using h1
      have e2 : k₂ ≠ p.1 := fun h => hne (e1.trans h.symm)
      have h2' : alookup k₂ rest = some v₂ := by simpa [alookup, e2] using h2
      have hv2m : v₂ ∈ rest.map Prod.snd :=
        List.mem_map_of_mem Prod.snd (alookup_mem h2')
      intro hcontra
      exact hnd.1 (by rw [hv1, hcontra]; exact hv2m)
    · by_cases e2 : k₂ = p.1
      · have hv2 : p.2 = v₂ := by simpa [alookup, e2] using h2
        have h1' : alookup k₁ rest = some v₁ := by simpa [alookup, e1] using h1
        have hv1m : v₁ ∈ rest.map Prod.snd :=
          List.mem_map_of_mem Prod.snd (alookup_mem h1')
        intro hcontra
        exact hnd.1 (by rw [hv2, ← hcontra]; exact hv1m)
      · have h1' : alookup k₁ rest = some v₁ := by simpa [alookup, e1] using h1
        have h2' : alookup k₂ rest = some v₂ := by simpa [alookup, e2] using h2
        exact ih hnd.2 h1' h2' hne

theorem map_congr_mem {γ : Type} {f g : α → γ} :
    ∀ {l : List α}, (∀ a ∈ l, f a = g a) → l.map f = l.map g := by
  intro l
  induction l with
  | nil => intro _; rfl
  | cons a rest ih =>
    intro h
    simp only [List.map_cons]
    rw [h a (List.mem_cons_self _ _), ih (fun b hb => h b (List.mem_cons_of_mem _ hb))]

theorem map_id_mem {f : α → α} :
    ∀ {l : List α}, (∀ a ∈ l, f a = a) → l.map f = l := by
  intro l
  induction l with
  | nil => intro _; rfl
  | cons a rest ih =>
    intro h
    simp only [List.map_cons]
    rw [h a (List.mem_cons_self _ _), ih (fun b hb => h b (List.mem_cons_of_mem _ hb))]

/-! ## Data model

A per-stock entry dict with keys base_price, up_threshold and down_threshold
from src/app.py (lines 230-234) is a `WatchState`. The module-level `watches`
dict is an association list from user ids to references of inner dicts; the
heap resolves inner-dict references and entry references. -/

/-- The per-user, per-instrument threshold state (the Python info dict). -/
structure WatchState where
  base_price : ℚ
  up_threshold : ℚ
  down_threshold : ℚ
deriving DecidableEq

/-- The Python heap fragment relevant to the watch store: inner per-user
dicts and per-stock entry dicts, addressed by references. `nextRef` is the
next fresh allocation. -/
structure PyHeap where
  innerDicts : List (Nat × List (String × Nat))
  entryDicts : List (Nat × WatchState)
  nextRef : Nat
deriving DecidableEq

/-- The whole mutable state: the module-level `watches` dict (user id to
inner-dict reference) together with the heap. -/
structure Sys where
  watches : List (String × Nat)
  heap : PyHeap
deriving DecidableEq

def emptySys : Sys := ⟨[], ⟨[], [], 0⟩⟩

/-- Reference of the entry dict for (uid, sid), if present: follows
`watches[uid][sid]` through the heap. -/
def lookupRef (sys : Sys) (uid sid : String) : Option Nat :=
  match alookup uid sys.watches with
  | none => none
  | some r => alookup sid ((alookup r sys.heap.innerDicts).getD [])

/-- The WatchState stored for (uid, sid), if present. -/
def lookupEntry (sys : Sys) (uid sid : String) : Option WatchState :=
  match lookupRef sys uid sid with
  | none => none
  | some e => alookup e sys.heap.entryDicts

/-- Model of handle_message lines 227-234: `if user_id not in watches:
watches[user_id] = {}` followed by `watches[user_id][stock_id] = {base_price:
price, up_threshold: price * 1.05, down_threshold: price * 0.95}`. A fresh
entry dict is allocated; for a fresh user a fresh inner dict is allocated
first. -/
def addWatch (sys : Sys) (uid sid : String) (price : ℚ) : Sys :=
  match alookup uid sys.watches with
  | some r =>
    ⟨sys.watches,
     ⟨dinsert r (dinsert sid sys.heap.nextRef ((alookup r sys.heap.innerDicts).getD []))
        sys.heap.innerDicts,
      dinsert sys.heap.nextRef ⟨price, price * (105 / 100), price * (95 / 100)⟩
        sys.heap.entryDicts,
      sys.heap.nextRef + 1⟩⟩
  | none =>
    ⟨dinsert uid sys.heap.nextRef sys.watches,
     ⟨dinsert sys.heap.nextRef [(sid, sys.heap.nextRef + 1)] sys.heap.innerDicts,
      dinsert (sys.heap.nextRef + 1) ⟨price, price * (105 / 100), price * (95 / 100)⟩
        sys.heap.entryDicts,
      sys.heap.nextRef + 2⟩⟩

/-- Model of handle_message lines 206-211: `user_watches = watches.get(user_id, {});
if stock_id in user_watches: del user_watches[stock_id]`. Returns the updated
state and whether the entry existed (which selects the reply text). -/
def removeWatch (sys : Sys) (uid sid : String) : Sys × Bool :=
  match alookup uid sys.watches with
  | none => (sys, false)
  | some r =>
    match alookup sid ((alookup r sys.heap.innerDicts).getD []) with
    | none => (sys, false)
    | some _ =>
      (⟨sys.watches,
        ⟨dinsert r (ddel sid ((alookup r sys.heap.innerDicts).getD []))
           sys.heap.innerDicts,
         sys.heap.entryDicts,
         sys.heap.nextRef⟩⟩, true)

/-- Model of alert_loop lines 126-128: the three statements
`watches[user_id][stock_id]["base_price"] = price` (and the two threshold
assignments). Python raises KeyError if the user or the stock has been
deleted from the live store; otherwise the entry dict is updated in place. -/
def rebaseStep (sys : Sys) (uid sid : String) (price : ℚ) : Except String Sys :=
  match alookup uid sys.watches with
  | none => .error "KeyError"
  | some r =>
    match alookup sid ((alookup r sys.heap.innerDicts).getD []) with
    | none => .error "KeyError"
    | some e =>
      .ok ⟨sys.watches,
           ⟨sys.heap.innerDicts,
            dinsert e ⟨price, price * (105 / 100), price * (95 / 100)⟩ sys.heap.entryDicts,
            sys.heap.nextRef⟩⟩

/-- Model of alert_loop line 74, `current_watches = dict(watches)`: a copy of
the OUTER dict only. The copy holds the same inner-dict references as the
live store. -/
def snapshot (sys : Sys) : List (String × Nat) := sys.watches

/-- What an observer iterating a snapshot sees, dereferenced through a given
heap: for each (user, inner-ref) pair the inner dict contents, and for each
(stock, entry-ref) pair the entry contents. Dangling references (impossible
in Python) default to empty/zero. -/
def snapshotContents (snap : List (String × Nat)) (h : PyHeap) :
    List (String × List (String × WatchState)) :=
  snap.map fun p =>
    (p.1, ((alookup p.2 h.innerDicts).getD []).map fun q =>
      (q.1, (alookup q.2 h.entryDicts).getD ⟨0, 0, 0⟩))

/-! ## The alert scheduler (alert_loop, src/app.py lines 66-134)

Each cycle copies the outer dict, iterates the (user, stock, info) triples,
fetches a price, evaluates the crossing, pushes a message (its failure is
swallowed by the inner try/except at lines 120-123) and re-bases. A cycle
is modelled as processing a materialized list of iteration triples against
the current store; the info component of a triple is the entry value as read
at iteration time, which can be stale if a concurrent delete intervened
before the rebase statements run. One try/except (lines 72-131) wraps the
WHOLE cycle, so an uncaught error in one triple ends the cycle (the
remaining triples are not processed) but `while True` continues with the
next cycle. -/

inductive Direction where
  | up
  | down
deriving DecidableEq

/-- One attempted push_message (line 121): the formatted alert and whether
delivery succeeded. A failed push is caught and only printed, so it has no
effect on control flow. -/
structure Notif where
  uid : String
  sid : String
  price : ℚ
  oldBase : ℚ
  dir : Direction
  delivered : Bool
deriving DecidableEq

/-- The external collaborators during one cycle: the price source result per
stock (None models an unavailable price) and whether a Notifier push to a
given user about a given stock succeeds. -/
structure CycleEnv where
  priceOf : String → Option ℚ
  pushOk : String → String → Bool

/-- Crossing evaluation, alert_loop lines 98-104: `if price >= up_threshold`
then up, `elif price <= down_threshold` then down, else no crossing. -/
def crossing (price : ℚ) (info : WatchState) : Option Direction :=
  if price ≥ info.up_threshold then some Direction.up
  else if price ≤ info.down_threshold then some Direction.down
  else none

/-- Evaluation of one snapshot triple (alert_loop lines 78-128): fetch the
price (skip if unavailable), evaluate the crossing, on a crossing attempt
the push (failure swallowed) and then run the three rebase statements.
Returns the store after the triple, the pushes attempted, and the uncaught
error if the rebase raised. -/
def evalTriple (env : CycleEnv) (sys : Sys) (t : String × String × WatchState) :
    Sys × List Notif × Option String :=
  match env.priceOf t.2.1 with
  | none => (sys, [], none)
  | some price =>
    match crossing price t.2.2 with
    | none => (sys, [], none)
    | some dir =>
      match rebaseStep sys t.1 t.2.1 price with
      | .error e => (sys, [⟨t.1, t.2.1, price, t.2.2.base_price, dir, env.pushOk t.1 t.2.1⟩], some e)
      | .ok sys' => (sys', [⟨t.1, t.2.1, price, t.2.2.base_price, dir, env.pushOk t.1 t.2.1⟩], none)

/-- The triple loop of one cycle. An uncaught error from a triple propagates
to the cycle-level except (line 130), so the remaining triples are NOT
processed; state changes and pushes of earlier triples persist. -/
def processTriples (env : CycleEnv) : List (String × String × WatchState) → Sys →
    Sys × List Notif × Option String
  | [], sys => (sys, [], none)
  | t :: ts, sys =>
    match evalTriple env sys t with
    | (sys', ns, some e) => (sys', ns, some e)
    | (sys', ns, none) =>
      match processTriples env ts sys' with
      | (sys'', ns', err) => (sys'', ns ++ ns', err)

/-- The iteration triples of a cycle with no interleaved mutation: for
(user, inner-ref) in dict(watches), for (stock, entry-ref) in the inner
dict, with the entry value read through the heap. -/
def iterTriples (sys : Sys) : List (String × String × WatchState) :=
  sys.watches.flatMap fun p =>
    ((alookup p.2 sys.heap.innerDicts).getD []).map fun q =>
      (p.1, q.1, (alookup q.2 sys.heap.entryDicts).getD ⟨0, 0, 0⟩)

/-- One full cycle of alert_loop: snapshot, iterate, and swallow any cycle
error at the outer except (line 130-131). -/
def runCycle (env : CycleEnv) (sys : Sys) : Sys × List Notif :=
  match processTriples env (iterTriples sys) sys with
  | (sys', ns, _) => (sys', ns)

/-- The scheduler loop across cycles: `while True` never terminates because
of a cycle, so after each cycle (whatever its error outcome) the next cycle
runs on the resulting store. -/
def runCycles : List CycleEnv → Sys → Sys
  | [], sys => sys
  | env :: envs, sys => runCycles envs (runCycle env sys).1

/-! ## Command handling (handle_message, src/app.py lines 155-253)

Python text processing is modelled on `List Char`: `strip()` and `split()`
use the whitespace set of Python str methods (ASCII whitespace, the C1
separators, and the Unicode Zs spaces), `lower()` is modelled on the ASCII
range (the only cased characters the commands compare against), and
`replace("　", " ")` maps the full-width space U+3000 to a space. -/

/-- The whitespace set of Python str.strip()/str.split(). -/
def pySpace (c : Char) : Bool :=
  decide ((9 ≤ c.toNat ∧ c.toNat ≤ 13) ∨ c.toNat = 32 ∨ (28 ≤ c.toNat ∧ c.toNat ≤ 31) ∨
    c.toNat = 133 ∨ c.toNat = 160 ∨ c.toNat = 5760 ∨ (8192 ≤ c.toNat ∧ c.toNat ≤ 8202) ∨
    c.toNat = 8232 ∨ c.toNat = 8233 ∨ c.toNat = 8239 ∨ c.toNat = 8287 ∨ c.toNat = 12288)

/-- ASCII decimal digit, modelling the characters accepted by str.isdigit()
for the stock codes in play. -/
def pyDigit (c : Char) : Bool :=
  decide (48 ≤ c.toNat ∧ c.toNat ≤ 57)

/-- str.isdigit(): nonempty and all digits. -/
def pyIsDigit (s : List Char) : Bool :=
  !s.isEmpty && s.all pyDigit

/-- str.lower() on the ASCII range. -/
def pyLowerChar (c : Char) : Char :=
  if 65 ≤ c.toNat ∧ c.toNat ≤ 90 then Char.ofNat (c.toNat + 32) else c

def pyLower (s : List Char) : List Char := s.map pyLowerChar

/-- str.replace("　", " "): map the full-width space U+3000 to a space. -/
def pyReplaceFW (s : List Char) : List Char :=
  s.map fun c => if c.toNat = 12288 then ' ' else c

/-- str.strip(): drop leading and trailing whitespace. -/
def pyStrip (s : List Char) : List Char :=
  ((s.dropWhile pySpace).reverse.dropWhile pySpace).reverse

/-- Worker for str.split(): accumulate the current token (reversed). -/
def pySplitAux : List Char → List Char → List (List Char)
  | [], acc => if acc = [] then [] else [acc.reverse]
  | c :: rest, acc =>
    if pySpace c then
      if acc = [] then pySplitAux rest []
      else acc.reverse :: pySplitAux rest []
    else pySplitAux rest (c :: acc)

/-- str.split() with no separator: split on whitespace runs, no empty
tokens. -/
def pySplit (s : List Char) : List (List Char) := pySplitAux s []

/-- str.startswith(pre). -/
def pyStartsWith : List Char → List Char → Bool
  | [], _ => true
  | _ :: _, [] => false
  | p :: ps, c :: cs => if p = c then pyStartsWith ps cs else false

/-- handle_message line 201: `lower_text = text.lower().replace("　", " ").strip()`
where `text = event.message.text.strip()` (line 170). -/
def lowerText (raw : List Char) : List Char :=
  pyStrip (pyReplaceFW (pyLower (pyStrip raw)))

/-! ## The price source (get_tw_stock_price, src/app.py lines 41-63) -/

/-- Outcome of the MIS API request as far as the code inspects it: either
some exception was raised (network failure, bad JSON, float() failure is
folded into the parser argument below), or a response whose msgArray
elements are represented by their optional "z" (last trade) field. -/
inductive FetchResult where
  | exn
  | resp (msgArray : List (Option String))

/-- get_tw_stock_price: None on exception, on empty msgArray, on an absent
"z" field, and on the "-" and "0" no-trade sentinels; otherwise the parse
of the price string (a failing float() raises and is caught by the same
except, so the parser returns an Option as well). -/
def get_tw_stock_price (parseFloat : String → Option ℚ) : FetchResult → Option ℚ
  | .exn => none
  | .resp [] => none
  | .resp (z :: _) =>
    match z with
    | none => none
    | some s => if s = "-" ∨ s = "0" then none else parseFloat s

/-! ## The message handler (handle_message, src/app.py lines 155-253) -/

/-- The reply sent for an inbound message, by branch. -/
inductive Reply where
  | helpText
  | listEmpty
  | listEntries (entries : List (String × ℚ))
  | delOk (sid : String)
  | delNotWatching (sid : String)
  | delUsage
  | addFail (sid : String)
  | addOk (sid : String) (price : ℚ)
  | unknown
deriving DecidableEq

/-- The environment of one handle_message call: what get_tw_stock_price
returns for each stock id during this call. -/
structure MsgCtx where
  priceOf : String → Option ℚ

/-- handle_message: help/說明 reply (lines 173-184), list reply (187-198,
using `watches.get(user_id, {})` and `info.get("base_price", 0.0)`), the
delete branch on lower_text (201-215), the all-digit add branch (218-242,
no mutation when the price is unavailable), and the fallback hint (245-253).
Only the delete and add branches mutate the store. -/
def handle_message (ctx : MsgCtx) (sys : Sys) (uid : String) (raw : List Char) :
    Sys × Reply :=
  if pyLower (pyStrip raw) = "help".data ∨ pyLower (pyStrip raw) = "說明".data then
    (sys, Reply.helpText)
  else if pyLower (pyStrip raw) = "list".data then
    match alookup uid sys.watches with
    | none => (sys, Reply.listEmpty)
    | some r =>
      match alookup r sys.heap.innerDicts with
      | none => (sys, Reply.listEmpty)
      | some inner =>
        if inner = [] then (sys, Reply.listEmpty)
        else
          (sys, Reply.listEntries (inner.map fun q =>
            (q.1, ((alookup q.2 sys.heap.entryDicts).getD ⟨0, 0, 0⟩).base_price)))
  else if pyStartsWith "del ".data (lowerText raw) = true ∨
          pyStartsWith "刪除 ".data (lowerText raw) = true then
    match (pySplit (lowerText raw))[1]? with
    | some sid =>
      ((removeWatch sys uid (String.mk sid)).1,
       if (removeWatch sys uid (String.mk sid)).2 = true then Reply.delOk (String.mk sid)
       else Reply.delNotWatching (String.mk sid))
    | none => (sys, Reply.delUsage)
  else if pyIsDigit (pyStrip raw) = true then
    match ctx.priceOf (String.mk (pyStrip raw)) with
    | none => (sys, Reply.addFail (String.mk (pyStrip raw)))
    | some price =>
      (addWatch sys uid (String.mk (pyStrip raw)) price,
       Reply.addOk (String.mk (pyStrip raw)) price)
  else (sys, Reply.unknown)

/-! ## Lookup behaviour of the store operations -/

theorem lookupEntry_addWatch_self (sys : Sys) (uid sid : String) (p : ℚ) :
    lookupEntry (addWatch sys uid sid p) uid sid =
      some ⟨p, p * (105 / 100), p * (95 / 100)⟩ := by
  unfold lookupEntry lookupRef addWatch
  cases h : alookup uid sys.watches with
  | none => simp [h, alookup]
  | some r => simp [h, alookup]

theorem lookupEntry_rebase_self (sys sys' : Sys) (uid sid : String) (p : ℚ)
    (h : rebaseStep sys uid sid p = Except.ok sys') :
    lookupEntry sys' uid sid = some ⟨p, p * (105 / 100), p * (95 / 100)⟩ := by
  unfold rebaseStep at h
  split at h
  · simp at h
  · rename_i r hu
    split at h
    · simp at h
    · rename_i e he
      simp only [Except.ok.injEq] at h
      subst h
      unfold lookupEntry lookupRef
      simp [hu, he]

theorem rebaseStep_absent (sys : Sys) (uid sid : String) (p : ℚ)
    (h : lookupRef sys uid sid = none) :
    rebaseStep sys uid sid p = Except.error "KeyError" := by
  unfold rebaseStep
  split
  · rfl
  · rename_i r hu
    simp only [lookupRef, hu] at h
    simp [h]

/-- C4: for every basePrice > 0, immediately after an add (AddOrReplace, the
all-digit command branch) or a crossing rebase, the stored entry has
basePrice equal to the just-set price, upThreshold = basePrice * 1.05 and
downThreshold = basePrice * 0.95. -/
theorem thresholds_after_add_and_rebase (sys sys' : Sys) (uid sid : String) (p : ℚ)
    (_hp : 0 < p) (hreb : rebaseStep sys uid sid p = Except.ok sys') :
    lookupEntry (addWatch sys uid sid p) uid sid =
      some ⟨p, p * (105 / 100), p * (95 / 100)⟩ ∧
    lookupEntry sys' uid sid = some ⟨p, p * (105 / 100), p * (95 / 100)⟩ :=
  ⟨lookupEntry_addWatch_self sys uid sid p,
   lookupEntry_rebase_self sys sys' uid sid p hreb⟩

/-- C5: crossing detection uses closed boundaries with the exact comparison
operators of alert_loop lines 98-104. Stated for watch states whose
thresholds are the ±5% derivation from a positive base (the store invariant,
see the C8 theorem). -/
theorem crossing_closed_boundaries (info : WatchState) (price : ℚ)
    (hup : info.up_threshold = info.base_price * (105 / 100))
    (hdown : info.down_threshold = info.base_price * (95 / 100))
    (hpos : 0 < info.base_price) :
    (info.up_threshold ≤ price → crossing price info = some Direction.up) ∧
    (price ≤ info.down_threshold → crossing price info = some Direction.down) ∧
    (info.down_threshold < price → price < info.up_threshold →
      crossing price info = none) := by
  have hdu : info.down_threshold < info.up_threshold := by
    rw [hup, hdown]
    nlinarith
  refine ⟨?_, ?_, ?_⟩
  · intro h
    unfold crossing
    rw [if_pos h]
  · intro h
    unfold crossing
    rw [if_neg (by simp only [ge_iff_le, not_le]; linarith), if_pos h]
  · intro h1 h2
    unfold crossing
    rw [if_neg (by simp only [ge_iff_le, not_le]; linarith),
        if_neg (by simp only [not_le]; linarith)]

/-- C6: for every detected crossing, the rebase is unconditional with
respect to notification delivery. Replacing the push outcome function by any
other function f changes only the delivered flag of the attempted push: the
resulting store is the same, and the entry is re-based to exactly the
triggering price with thresholds recomputed from it (alert_loop lines
106-128: the push at line 121 is wrapped in its own try/except and lines
126-128 run regardless). -/
theorem rebase_unconditional_on_delivery (env : CycleEnv) (f : String → String → Bool)
    (sys sys' : Sys) (t : String × String × WatchState) (price : ℚ) (dir : Direction)
    (ns : List Notif)
    (hpr : env.priceOf t.2.1 = some price)
    (hcr : crossing price t.2.2 = some dir)
    (hok : evalTriple env sys t = (sys', ns, none)) :
    evalTriple ⟨env.priceOf, f⟩ sys t =
      (sys', [⟨t.1, t.2.1, price, t.2.2.base_price, dir, f t.1 t.2.1⟩], none) ∧
    lookupEntry sys' t.1 t.2.1 = some ⟨price, price * (105 / 100), price * (95 / 100)⟩ := by
  unfold evalTriple at hok ⊢
  cases hre : rebaseStep sys t.1 t.2.1 price with
  | error e =>
    simp only [hpr, hcr, hre] at hok
    simp at hok
  | ok s2 =>
    simp only [hpr, hcr, hre] at hok ⊢
    obtain ⟨hs, -, -⟩ := Prod.mk.injEq .. ▸ hok
    subst hs
    exact ⟨rfl, lookupEntry_rebase_self sys s2 t.1 t.2.1 price hre⟩

/-! ## Snapshot shallowness (C1)

`dict(watches)` copies only the outer dict. A mutation that touches only a
user absent from the snapshot (a first add by a new user allocates a fresh
inner dict and a fresh entry dict) cannot be seen through the snapshot; a
mutation on a user present in the snapshot goes through the very inner dict
and entry dicts the snapshot references, so it IS seen through the
snapshot (see the counterexample). -/

/-- All references reachable from the store lie below the allocation front,
so a fresh allocation never collides with them. Every state the Python
program reaches has this shape (objects are distinct and allocation is
fresh). -/
def RefsBounded (sys : Sys) : Prop :=
  (∀ p ∈ sys.watches, p.2 < sys.heap.nextRef) ∧
  (∀ p ∈ sys.heap.innerDicts, ∀ q ∈ p.2, q.2 < sys.heap.nextRef)

instance (sys : Sys) : Decidable (RefsBounded sys) := by
  unfold RefsBounded
  infer_instance

/-- C1 (amended): the snapshot is only an outer-dict copy. An add for a
user absent from the live outer dict (hence absent from the snapshot)
leaves the dereferenced contents of the snapshot unchanged. -/
theorem snapshot_outer_copy_fresh_user_unaffected (sys : Sys) (uid sid : String) (p : ℚ)
    (hb : RefsBounded sys) (hu : alookup uid sys.watches = none) :
    snapshotContents (snapshot sys) (addWatch sys uid sid p).heap =
      snapshotContents (snapshot sys) sys.heap := by
  unfold addWatch
  split
  · rename_i r hr
    rw [hu] at hr
    cases hr
  · unfold snapshotContents snapshot
    apply map_congr_mem
    intro a ha
    dsimp only
    have hne : a.2 ≠ sys.heap.nextRef := Nat.ne_of_lt (hb.1 a ha)
    rw [alookup_dinsert_ne _ _ _ _ hne]
    cases hi : alookup a.2 sys.heap.innerDicts with
    | none => simp
    | some inner =>
      simp only [Option.getD_some]
      congr 1
      apply map_congr_mem
      intro q hq
      dsimp only
      have hq2 : q.2 < sys.heap.nextRef := hb.2 (a.2, inner) (alookup_mem hi) q hq
      have hqne : q.2 ≠ sys.heap.nextRef + 1 := by omega
      rw [alookup_dinsert_ne _ _ _ _ hqne]

/-! ## The store invariant (C8) -/

/-- The derivation invariant for one stored entry: the thresholds are
exactly the ±5% derivation from the base price written at the same (re)base
moment. -/
def derivedWs (ws : WatchState) : Prop :=
  ws.up_threshold = ws.base_price * (105 / 100) ∧
  ws.down_threshold = ws.base_price * (95 / 100)

/-- Every entry dict in the heap is derived. Entry dicts are only ever
written by addWatch and rebaseStep, both of which write a derived record. -/
def HeapInv (sys : Sys) : Prop :=
  ∀ p ∈ sys.heap.entryDicts, derivedWs p.2

theorem heapInv_empty : HeapInv emptySys := by
  intro p hp
  simp [emptySys] at hp

theorem derived_dinsert {l : List (Nat × WatchState)} (e : Nat) (p : ℚ)
    (h : ∀ q ∈ l, derivedWs q.2) :
    ∀ q ∈ dinsert e ⟨p, p * (105 / 100), p * (95 / 100)⟩ l, derivedWs q.2 := by
  intro q hq
  rcases mem_dinsert hq with h' | h'
  · rw [h']
    exact ⟨rfl, rfl⟩
  · exact h q h'

theorem heapInv_addWatch (sys : Sys) (uid sid : String) (p : ℚ)
    (h : HeapInv sys) : HeapInv (addWatch sys uid sid p) := by
  unfold HeapInv addWatch
  split
  · exact derived_dinsert _ _ h
  · exact derived_dinsert _ _ h

theorem heapInv_removeWatch (sys : Sys) (uid sid : String)
    (h : HeapInv sys) : HeapInv (removeWatch sys uid sid).1 := by
  unfold HeapInv removeWatch
  split
  · exact h
  · split
    · exact h
    · exact h

theorem heapInv_rebaseStep (sys sys' : Sys) (uid sid : String) (p : ℚ)
    (h : HeapInv sys) (hok : rebaseStep sys uid sid p = Except.ok sys') :
    HeapInv sys' := by
  unfold rebaseStep at hok
  split at hok
  · simp at hok
  · split at hok
    · simp at hok
    · simp only [Except.ok.injEq] at hok
      subst hok
      exact derived_dinsert _ _ h

theorem heapInv_evalTriple (env : CycleEnv) (sys : Sys)
    (t : String × String × WatchState) (h : HeapInv sys) :
    HeapInv (evalTriple env sys t).1 := by
  unfold evalTriple
  split
  · exact h
  · split
    · exact h
    · split
      · exact h
      · rename_i s2 hre
        exact heapInv_rebaseStep sys s2 t.1 t.2.1 _ h hre

theorem processTriples_cons_err (env : CycleEnv) (t : String × String × WatchState)
    (ts : List (String × String × WatchState)) (sys sys' : Sys) (ns : List Notif) (e : String)
    (h : evalTriple env sys t = (sys', ns, some e)) :
    processTriples env (t :: ts) sys = (sys', ns, some e) := by
  unfold processTriples
  rw [h]

theorem processTriples_cons_ok (env : CycleEnv) (t : String × String × WatchState)
    (ts : List (String × String × WatchState)) (sys sys' : Sys) (ns : List Notif)
    (h : evalTriple env sys t = (sys', ns, none)) :
    processTriples env (t :: ts) sys =
      ((processTriples env ts sys').1, ns ++ (processTriples env ts sys').2.1,
       (processTriples env ts sys').2.2) := by
  have hfold : processTriples env (t :: ts) sys =
      match evalTriple env sys t with
      | (s1, n1, some e) => (s1, n1, some e)
      | (s1, n1, none) =>
        match processTriples env ts s1 with
        | (s2, n2, err) => (s2, n1 ++ n2, err) := rfl
  rw [hfold, h]

theorem heapInv_processTriples (env : CycleEnv) :
    ∀ (ts : List (String × String × WatchState)) (sys : Sys),
      HeapInv sys → HeapInv (processTriples env ts sys).1 := by
  intro ts
  induction ts with
  | nil =>
    intro sys h
    exact h
  | cons t ts ih =>
    intro sys h
    rcases hev : evalTriple env sys t with ⟨sys', ns, err⟩
    have h' : HeapInv sys' := by
      have := heapInv_evalTriple env sys t h
      rw [hev] at this
      exact this
    cases err with
    | some e =>
      rw [processTriples_cons_err env t ts sys sys' ns e hev]
      exact h'
    | none =>
      rw [processTriples_cons_ok env t ts sys sys' ns hev]
      exact ih sys' h'

theorem runCycle_fst (env : CycleEnv) (sys : Sys) :
    (runCycle env sys).1 = (processTriples env (iterTriples sys) sys).1 := rfl

/-- The store states reachable from the empty store by the operations of
the program: add (the all-digit command), remove (the delete command), a
successful scheduler rebase, and a whole scheduler cycle. The list command
and taking a snapshot do not mutate the store. -/
inductive Reachable : Sys → Prop where
  | init : Reachable emptySys
  | add (sys : Sys) (uid sid : String) (p : ℚ) :
      Reachable sys → Reachable (addWatch sys uid sid p)
  | remove (sys : Sys) (uid sid : String) :
      Reachable sys → Reachable (removeWatch sys uid sid).1
  | rebase (sys sys' : Sys) (uid sid : String) (p : ℚ) :
      Reachable sys → rebaseStep sys uid sid p = Except.ok sys' → Reachable sys'
  | cycle (sys : Sys) (env : CycleEnv) :
      Reachable sys → Reachable (runCycle env sys).1

theorem heapInv_reachable (sys : Sys) (h : Reachable sys) : HeapInv sys := by
  induction h with
  | init => exact heapInv_empty
  | add sys uid sid p _ ih => exact heapInv_addWatch sys uid sid p ih
  | remove sys uid sid _ ih => exact heapInv_removeWatch sys uid sid ih
  | rebase sys sys' uid sid p _ hok ih => exact heapInv_rebaseStep sys sys' uid sid p ih hok
  | cycle sys env _ ih =>
    rw [runCycle_fst]
    exact heapInv_processTriples env (iterTriples sys) sys ih

/-- C8: in every reachable store state, every stored entry has thresholds
exactly derived from its base price as written at its last (re)basing (the
program never writes a threshold separately from its base), and whenever
the base is positive the strict ordering down < base < up holds. -/
theorem reachable_thresholds_invariant (sys : Sys) (uid sid : String) (ws : WatchState)
    (hr : Reachable sys) (he : lookupEntry sys uid sid = some ws) :
    ws.up_threshold = ws.base_price * (105 / 100) ∧
    ws.down_threshold = ws.base_price * (95 / 100) ∧
    (0 < ws.base_price →
      ws.down_threshold < ws.base_price ∧ ws.base_price < ws.up_threshold) := by
  have hinv := heapInv_reachable sys hr
  unfold lookupEntry at he
  split at he
  · simp at he
  · rename_i e hlr
    obtain ⟨h1, h2⟩ := hinv (e, ws) (alookup_mem he)
    refine ⟨h1, h2, fun hpos => ⟨?_, ?_⟩⟩
    · rw [h2]
      nlinarith
    · rw [h1]
      nlinarith

/-! ## Concurrent deletion between snapshot and rebase (C2), error scope (C3) -/

/-- C2 (amended): rebasing a (user, instrument) pair that has been deleted
between the snapshot iteration and the rebase statements is NOT a no-op
reported as false: `watches[user_id][stock_id]` raises a KeyError. The
store is unchanged by the attempt, and the cycle carrying the failing
triple returns the unchanged store, the already-attempted push, and the
propagating error (which only the cycle-level except swallows, ending that
cycle early). -/
theorem rebase_deleted_raises_keyerror (sys : Sys) (uid sid : String) (price : ℚ)
    (env : CycleEnv) (info : WatchState) (dir : Direction)
    (ts : List (String × String × WatchState))
    (habs : lookupRef sys uid sid = none)
    (hpr : env.priceOf sid = some price)
    (hcr : crossing price info = some dir) :
    rebaseStep sys uid sid price = Except.error "KeyError" ∧
    processTriples env ((uid, sid, info) :: ts) sys =
      (sys, [⟨uid, sid, price, info.base_price, dir, env.pushOk uid sid⟩],
       some "KeyError") := by
  have hre := rebaseStep_absent sys uid sid price habs
  refine ⟨hre, ?_⟩
  have hev : evalTriple env sys (uid, sid, info) =
      (sys, [⟨uid, sid, price, info.base_price, dir, env.pushOk uid sid⟩],
       some "KeyError") := by
    unfold evalTriple
    simp only [hpr, hcr, hre]
  exact processTriples_cons_err env _ ts sys _ _ _ hev

/-- C3 (amended): failures are isolated per CYCLE, not per triple. An
uncaught error while evaluating one triple ends the remainder of that
cycle (the store and notification effects of the later triples of the same
cycle do not happen), but the while-True loop is unaffected: the next cycle
runs on the resulting store exactly as it would after any cycle. -/
theorem cycle_level_isolation (env : CycleEnv) (t : String × String × WatchState)
    (ts : List (String × String × WatchState)) (sys sys₁ : Sys) (ns : List Notif)
    (e : String) (envs : List CycleEnv)
    (h : evalTriple env sys t = (sys₁, ns, some e)) :
    processTriples env (t :: ts) sys = (sys₁, ns, some e) ∧
    runCycles (env :: envs) sys = runCycles envs (runCycle env sys).1 :=
  ⟨processTriples_cons_err env t ts sys sys₁ ns e h, rfl⟩

/-! ## Text-processing lemmas (for C7, C9, C10) -/

theorem pySpace_space : pySpace ' ' = true := by decide

theorem dropWhile_head_false {p : α → Bool} :
    ∀ {l : List α} {c : α}, (l.dropWhile p).head? = some c → p c = false := by
  intro l
  induction l with
  | nil => intro c h; simp [List.dropWhile] at h
  | cons a rest ih =>
    intro c h
    by_cases hp : p a = true
    · rw [List.dropWhile_cons, if_pos hp] at h
      exact ih h
    · rw [List.dropWhile_cons, if_neg hp] at h
      simp only [List.head?_cons, Option.some.injEq] at h
      subst h
      exact Bool.not_eq_true _ ▸ hp

theorem dropWhile_all_false {p : α → Bool} {l : List α} (h : ∀ c ∈ l, p c = false) :
    l.dropWhile p = l := by
  cases l with
  | nil => rfl
  | cons a t =>
    rw [List.dropWhile_cons, if_neg]
    rw [h a (List.mem_cons_self _ _)]
    simp

theorem pyStrip_reverse (s : List Char) :
    (pyStrip s).reverse = ((s.dropWhile pySpace).reverse).dropWhile pySpace := by
  unfold pyStrip
  rw [List.reverse_reverse]

theorem pyStrip_reverse_head_nonspace {s : List Char} {c : Char}
    (h : (pyStrip s).reverse.head? = some c) : pySpace c = false := by
  rw [pyStrip_reverse] at h
  exact dropWhile_head_false h

theorem pyStrip_all_nonspace {l : List Char} (h : ∀ c ∈ l, pySpace c = false) :
    pyStrip l = l := by
  unfold pyStrip
  rw [dropWhile_all_false h,
      dropWhile_all_false (fun c hc => h c (List.mem_reverse.mp hc)),
      List.reverse_reverse]

theorem pyStartsWith_append {pre : List Char} :
    ∀ {s : List Char}, pyStartsWith pre s = true → ∃ r, s = pre ++ r := by
  induction pre with
  | nil => intro s _; exact ⟨s, rfl⟩
  | cons p ps ih =>
    intro s h
    cases s with
    | nil => simp [pyStartsWith] at h
    | cons c cs =>
      unfold pyStartsWith at h
      by_cases hpc : p = c
      · subst hpc
        rw [if_pos rfl] at h
        obtain ⟨r, hr⟩ := ih h
        exact ⟨r, by rw [List.cons_append, ← hr]⟩
      · rw [if_neg hpc] at h
        cases h

theorem pySplitAux_nil (acc : List Char) :
    pySplitAux [] acc = if acc = [] then [] else [acc.reverse] := rfl

theorem pySplitAux_cons (c : Char) (rest acc : List Char) :
    pySplitAux (c :: rest) acc =
      if pySpace c then
        if acc = [] then pySplitAux rest [] else acc.reverse :: pySplitAux rest []
      else pySplitAux rest (c :: acc) := rfl

theorem pySplitAux_token :
    ∀ (t acc rest : List Char), (∀ c ∈ t, pySpace c = false) → (acc = [] → t ≠ []) →
      pySplitAux (t ++ ' ' :: rest) acc = (acc.reverse ++ t) :: pySplitAux rest [] := by
  intro t
  induction t with
  | nil =>
    intro acc rest _ hne
    have hacc : ¬acc = [] := fun h => (hne h) rfl
    simp only [List.nil_append, List.append_nil]
    rw [pySplitAux_cons, if_pos pySpace_space, if_neg hacc]
  | cons ch t' ih =>
    intro acc rest hns hne
    have hch : pySpace ch = false := hns ch (List.mem_cons_self _ _)
    simp only [List.cons_append]
    rw [pySplitAux_cons, hch]
    simp only [Bool.false_eq_true, if_false]
    rw [ih (ch :: acc) rest (fun c hc => hns c (List.mem_cons_of_mem _ hc))
        (fun h => absurd h (by simp))]
    simp [List.reverse_cons, List.append_assoc]

theorem pySplitAux_ne_nil :
    ∀ (r acc : List Char), (acc ≠ [] ∨ ∃ c ∈ r, pySpace c = false) →
      pySplitAux r acc ≠ [] := by
  intro r
  induction r with
  | nil =>
    intro acc h
    rcases h with h | ⟨c, hc, _⟩
    · simp [pySplitAux, h]
    · simp at hc
  | cons a r' ih =>
    intro acc h
    rw [pySplitAux_cons]
    by_cases ha : pySpace a = true
    · rw [if_pos ha]
      rcases h with h | ⟨c, hc, hcf⟩
      · rw [if_neg h]
        simp
      · have hcr : c ∈ r' := by
          rcases List.mem_cons.mp hc with h' | h'
          · subst h'
            rw [ha] at hcf
            cases hcf
          · exact h'
        by_cases hacc : acc = []
        · rw [if_pos hacc]
          exact ih [] (Or.inr ⟨c, hcr, hcf⟩)
        · rw [if_neg hacc]
          simp
    · rw [if_neg ha]
      exact ih (a :: acc) (Or.inl (by simp))

/-- A stripped text of the shape token-space-rest splits into the token and
at least one further token: since the text is stripped, its last character
is not whitespace, so rest holds a non-whitespace character. -/
theorem split_two_of_stripped (t rest s : List Char)
    (ht : t ≠ []) (hts : ∀ c ∈ t, pySpace c = false)
    (heq : pyStrip s = t ++ ' ' :: rest) :
    2 ≤ (pySplit (pyStrip s)).length := by
  have hlast : ∀ c : Char, (pyStrip s).reverse.head? = some c → pySpace c = false :=
    fun c h => pyStrip_reverse_head_nonspace h
  rw [heq] at hlast ⊢
  cases rest with
  | nil =>
    have hsp : pySpace ' ' = false := by
      apply hlast
      simp [List.reverse_append]
    rw [pySpace_space] at hsp
    cases hsp
  | cons r0 rs =>
    obtain ⟨c, cs, hcc⟩ : ∃ c cs, (r0 :: rs).reverse = c :: cs := by
      cases hrr : (r0 :: rs).reverse with
      | nil => exact absurd hrr (by simp)
      | cons c cs => exact ⟨c, cs, rfl⟩
    have hcns : pySpace c = false := by
      apply hlast
      simp [List.reverse_append, hcc]
    have hcmem : c ∈ r0 :: rs := List.mem_reverse.mp (hcc ▸ List.mem_cons_self _ _)
    have hsplit : pySplit (t ++ ' ' :: r0 :: rs) = t :: pySplitAux (r0 :: rs) [] := by
      unfold pySplit
      rw [pySplitAux_token t [] (r0 :: rs) hts (fun _ => ht)]
      simp
    rw [hsplit]
    have hne2 := pySplitAux_ne_nil (r0 :: rs) [] (Or.inr ⟨c, hcmem, hcns⟩)
    have := List.length_pos.mpr hne2
    simp only [List.length_cons]
    omega

/-- After normalization, a text in the delete branch always splits into at
least two tokens. -/
theorem del_split_two (raw : List Char)
    (h : pyStartsWith "del ".data (lowerText raw) = true ∨
         pyStartsWith "刪除 ".data (lowerText raw) = true) :
    2 ≤ (pySplit (lowerText raw)).length := by
  rcases h with h | h
  · obtain ⟨r, hr⟩ := pyStartsWith_append h
    exact split_two_of_stripped "del".data r (pyReplaceFW (pyLower (pyStrip raw)))
      (by decide) (by decide) hr
  · obtain ⟨r, hr⟩ := pyStartsWith_append h
    exact split_two_of_stripped "刪除".data r (pyReplaceFW (pyLower (pyStrip raw)))
      (by decide) (by decide) hr

theorem get_one_of_two_le {l : List (List Char)} (h : 2 ≤ l.length) :
    ∃ x, l[1]? = some x := by
  cases l with
  | nil => simp at h
  | cons a t =>
    cases t with
    | nil => simp at h
    | cons b t' => exact ⟨b, by simp⟩

/-! ## Digit texts (for C7) -/

theorem digit_lower (c : Char) (h : pyDigit c = true) : pyLowerChar c = c := by
  have hb := of_decide_eq_true h
  unfold pyLowerChar
  rw [if_neg (by omega)]

theorem digit_not_space (c : Char) (h : pyDigit c = true) : pySpace c = false := by
  have hb := of_decide_eq_true h
  unfold pySpace
  exact decide_eq_false (by omega)

theorem digit_not_fw (c : Char) (h : pyDigit c = true) :
    (if c.toNat = 12288 then ' ' else c) = c := by
  have hb := of_decide_eq_true h
  rw [if_neg (by omega)]

/-! ## The delete branch (for C9 and C10) -/

/-- A keyword text (help, 說明, list) never reaches the delete branch: its
normalization does not start with a delete keyword and a space. -/
theorem not_keyword_of_del_start {raw : List Char} (kw : List Char)
    (hkw : pyStartsWith "del ".data (pyStrip (pyReplaceFW kw)) = false ∧
           pyStartsWith "刪除 ".data (pyStrip (pyReplaceFW kw)) = false)
    (h : pyStartsWith "del ".data (lowerText raw) = true ∨
         pyStartsWith "刪除 ".data (lowerText raw) = true) :
    pyLower (pyStrip raw) ≠ kw := by
  intro hcontra
  unfold lowerText at h
  rw [hcontra] at h
  rcases h with h | h
  · rw [hkw.1] at h
    cases h
  · rw [hkw.2] at h
    cases h

/-- When the normalized text enters the delete branch, the split always has
a second token and the handler performs exactly the remove of that token
for the sender, replying delOk or delNotWatching — never the usage reply. -/
theorem handle_del (ctx : MsgCtx) (sys : Sys) (uid : String) (raw : List Char)
    (h : pyStartsWith "del ".data (lowerText raw) = true ∨
         pyStartsWith "刪除 ".data (lowerText raw) = true) :
    ∃ sid, (pySplit (lowerText raw))[1]? = some sid ∧
      handle_message ctx sys uid raw =
        ((removeWatch sys uid (String.mk sid)).1,
         if (removeWatch sys uid (String.mk sid)).2 = true then Reply.delOk (String.mk sid)
         else Reply.delNotWatching (String.mk sid)) := by
  obtain ⟨sid, hsid⟩ := get_one_of_two_le (del_split_two raw h)
  refine ⟨sid, hsid, ?_⟩
  unfold handle_message
  rw [if_neg (not_or.mpr
        ⟨not_keyword_of_del_start "help".data (by exact ⟨by decide, by decide⟩) h,
         not_keyword_of_del_start "說明".data (by exact ⟨by decide, by decide⟩) h⟩),
      if_neg (not_keyword_of_del_start "list".data (by exact ⟨by decide, by decide⟩) h),
      if_pos h, hsid]

theorem removeWatch_frame (sys : Sys) (uid sid uid' sid' : String)
    (hwf : (sys.watches.map Prod.snd).Nodup)
    (hne : uid' ≠ uid ∨ sid' ≠ sid) :
    lookupEntry (removeWatch sys uid sid).1 uid' sid' = lookupEntry sys uid' sid' := by
  unfold removeWatch
  split
  · rfl
  · rename_i r hu
    split
    · rfl
    · rename_i e he
      unfold lookupEntry lookupRef
      cases hu' : alookup uid' sys.watches with
      | none => simp [hu']
      | some r' =>
        simp only [hu']
        by_cases huu : uid' = uid
        · subst huu
          rw [hu] at hu'
          injection hu' with hrr
          subst hrr
          have hss : sid' ≠ sid := by
            rcases hne with hne | hne
            · exact absurd rfl hne
            · exact hne
          simp [alookup_dinsert_self, alookup_ddel_ne _ _ _ hss]
        · have hrr : r' ≠ r := alookup_snd_nodup_ne hwf hu' hu huu
          simp [alookup_dinsert_ne _ _ _ _ hrr]

/-- C9: for every store (with the physically guaranteed distinctness of
inner dicts) and every message that enters the delete branch, the handler
state is exactly the removal of (sender, second token); every other
(user, instrument) entry — other instruments of the sender and all entries
of all other users — is unchanged, whether or not the deleted entry
existed. -/
theorem delete_frame_property (ctx : MsgCtx) (sys : Sys) (uid : String) (raw : List Char)
    (sid : List Char) (uid' sid' : String)
    (hwf : (sys.watches.map Prod.snd).Nodup)
    (hstart : pyStartsWith "del ".data (lowerText raw) = true ∨
              pyStartsWith "刪除 ".data (lowerText raw) = true)
    (hsid : (pySplit (lowerText raw))[1]? = some sid)
    (hne : uid' ≠ uid ∨ sid' ≠ String.mk sid) :
    (handle_message ctx sys uid raw).1 = (removeWatch sys uid (String.mk sid)).1 ∧
    lookupEntry (handle_message ctx sys uid raw).1 uid' sid' =
      lookupEntry sys uid' sid' := by
  obtain ⟨sid0, hsid0, heq⟩ := handle_del ctx sys uid raw hstart
  rw [hsid0] at hsid
  injection hsid with hsid
  subst hsid
  constructor
  · rw [heq]
  · rw [heq]
    exact removeWatch_frame sys uid (String.mk sid0) uid' sid' hwf hne

/-- C10: the usage reply of the delete branch (handle_message line 213) is
dead code. Any text whose normalization starts with a delete keyword and a
space splits into at least two tokens (the normalization ends with strip,
so some non-whitespace character follows the keyword), hence the branch
always proceeds to the lookup and never replies with the usage text. -/
theorem del_usage_unreachable (ctx : MsgCtx) (sys : Sys) (uid : String) (raw : List Char)
    (h : pyStartsWith "del ".data (lowerText raw) = true ∨
         pyStartsWith "刪除 ".data (lowerText raw) = true) :
    2 ≤ (pySplit (lowerText raw)).length ∧
    (handle_message ctx sys uid raw).2 ≠ Reply.delUsage := by
  refine ⟨del_split_two raw h, ?_⟩
  obtain ⟨sid, hsid, heq⟩ := handle_del ctx sys uid raw h
  rw [heq]
  by_cases hb : (removeWatch sys uid (String.mk sid)).2 = true
  · simp [hb]
  · simp [hb]

/-- C7: an all-digit add command with an unavailable price replies with the
failure text and performs NO store mutation (the handler returns before the
add, lines 221-225); and get_tw_stock_price reports unavailable (None) on
an exception, an empty msgArray, an absent last-trade field, and the "-"
and "0" sentinels. -/
theorem add_unavailable_atomic (ctx : MsgCtx) (sys : Sys) (uid : String) (raw : List Char)
    (pf : String → Option ℚ) (rest : List (Option String))
    (hd : pyIsDigit (pyStrip raw) = true)
    (hp : ctx.priceOf (String.mk (pyStrip raw)) = none) :
    handle_message ctx sys uid raw = (sys, Reply.addFail (String.mk (pyStrip raw))) ∧
    get_tw_stock_price pf FetchResult.exn = none ∧
    get_tw_stock_price pf (FetchResult.resp []) = none ∧
    get_tw_stock_price pf (FetchResult.resp (none :: rest)) = none ∧
    get_tw_stock_price pf (FetchResult.resp (some "-" :: rest)) = none ∧
    get_tw_stock_price pf (FetchResult.resp (some "0" :: rest)) = none := by
  refine ⟨?_, rfl, rfl, rfl, by simp [get_tw_stock_price], by simp [get_tw_stock_price]⟩
  have hdd := hd
  unfold pyIsDigit at hdd
  rw [Bool.and_eq_true] at hdd
  obtain ⟨hne, hall⟩ := hdd
  rw [List.all_eq_true] at hall
  obtain ⟨c0, cs0, hc0⟩ : ∃ c0 cs0, pyStrip raw = c0 :: cs0 := by
    cases hsr : pyStrip raw with
    | nil =>
      rw [hsr] at hne
      simp at hne
    | cons c0 cs0 => exact ⟨c0, cs0, rfl⟩
  have hd0 : pyDigit c0 = true := hall c0 (hc0 ▸ List.mem_cons_self _ _)
  have hlow : pyLower (pyStrip raw) = pyStrip raw :=
    map_id_mem (fun c hc => digit_lower c (hall c hc))
  have hrep : pyReplaceFW (pyStrip raw) = pyStrip raw :=
    map_id_mem (fun c hc => digit_not_fw c (hall c hc))
  have hstr : pyStrip (pyStrip raw) = pyStrip raw :=
    pyStrip_all_nonspace (fun c hc => digit_not_space c (hall c hc))
  have hlt : lowerText raw = pyStrip raw := by
    unfold lowerText
    rw [hlow, hrep, hstr]
  have hnh : ¬(pyLower (pyStrip raw) = "help".data ∨
               pyLower (pyStrip raw) = "說明".data) := by
    rw [hlow, hc0]
    rintro (h | h) <;>
      · injection h with h1 _
        rw [h1] at hd0
        exact absurd hd0 (by decide)
  have hnl : ¬(pyLower (pyStrip raw) = "list".data) := by
    rw [hlow, hc0]
    intro h
    injection h with h1 _
    rw [h1] at hd0
    exact absurd hd0 (by decide)
  have hnd : ¬(pyStartsWith "del ".data (lowerText raw) = true ∨
               pyStartsWith "刪除 ".data (lowerText raw) = true) := by
    rw [hlt, hc0]
    rintro (h | h) <;>
      · unfold pyStartsWith at h
        split at h
        · rename_i hdc
          rw [← hdc] at hd0
          exact absurd hd0 (by decide)
        · cases h
  unfold handle_message
  rw [if_neg hnh, if_neg hnl, if_neg hnd, if_pos hd, hp]

/-! ## Concrete states used by witnesses and counterexamples -/

/-- The store after user "u" adds stock 2330 at price 150
(end-to-end scenario 1 of the spec). -/
def sysA : Sys := addWatch emptySys "u" "2330" 150

/-- The store sysA after the crossing rebase to 158 (end-to-end scenario 2
of the spec). -/
def sysA' : Sys :=
  ⟨[("u", 0)],
   ⟨[(0, [("2330", 1)])],
    [(1, ⟨158, 158 * (105 / 100), 158 * (95 / 100)⟩)],
    2⟩⟩

/-- C4 witness at scenario 2: base 150, rebase price 158. -/
theorem thresholds_after_add_and_rebase_witness :
    lookupEntry (addWatch sysA "u" "2330" 158) "u" "2330" =
      some ⟨158, 158 * (105 / 100), 158 * (95 / 100)⟩ ∧
    lookupEntry sysA' "u" "2330" = some ⟨158, 158 * (105 / 100), 158 * (95 / 100)⟩ :=
  thresholds_after_add_and_rebase sysA sysA' "u" "2330" 158 (by norm_num)
    (by with_unfolding_all rfl)

/-- The entry stored in sysA. -/
def wsA : WatchState := ⟨150, 150 * (105 / 100), 150 * (95 / 100)⟩

/-- An entry based at 100. -/
def ws100 : WatchState := ⟨100, 100 * (105 / 100), 100 * (95 / 100)⟩

/-- User "u" watches 2330 and 2603 (both based at 100), then 2330 is
deleted. A cycle whose iteration started before the delete still carries
the 2330 triple. -/
def sysX : Sys :=
  (removeWatch (addWatch (addWatch emptySys "u" "2330" 100) "u" "2603" 100) "u" "2330").1

/-- The stale triple for the deleted stock, as read at iteration time. -/
def t1x : String × String × WatchState := ("u", "2330", ws100)

/-- The still-live triple of the same cycle. -/
def t2x : String × String × WatchState := ("u", "2603", ws100)

/-- A cycle environment: every price fetch returns 158 (a +5% crossing from
base 100) and every push succeeds. -/
def envX : CycleEnv := ⟨fun _ => some 158, fun _ _ => true⟩

/-- C2 counterexample: rebasing the concurrently deleted ("u", "2330")
raises a KeyError instead of returning false without error, refuting the
claim that the attempt raises no error. -/
theorem rebase_deleted_not_silent_cex :
    rebaseStep sysX "u" "2330" 158 = Except.error "KeyError" := by
  with_unfolding_all rfl

/-- C2 witness. -/
theorem rebase_deleted_witness :
    rebaseStep sysX "u" "2330" 158 = Except.error "KeyError" ∧
    processTriples envX [("u", "2330", ws100)] sysX =
      (sysX, [⟨"u", "2330", 158, ws100.base_price, Direction.up, true⟩],
       some "KeyError") :=
  rebase_deleted_raises_keyerror sysX "u" "2330" 158 envX ws100 Direction.up []
    (by with_unfolding_all rfl) rfl (by with_unfolding_all decide)

/-- C3 counterexample: in a cycle carrying the stale 2330 triple and then
the live 2603 triple, the KeyError from the first triple prevents the
second triple from being evaluated (the cycle returns with the store
unchanged and no 2603 push), although evaluating the 2603 triple by itself
succeeds, pushes, and re-bases the store. -/
theorem triple_error_aborts_cycle_cex :
    processTriples envX [t1x, t2x] sysX =
      (sysX, [⟨"u", "2330", 158, 100, Direction.up, true⟩], some "KeyError") ∧
    (processTriples envX [t2x] sysX).2.2 = none ∧
    (processTriples envX [t2x] sysX).2.1 =
      [⟨"u", "2603", 158, 100, Direction.up, true⟩] ∧
    (processTriples envX [t2x] sysX).1 ≠ sysX := by
  refine ⟨?_, ?_, ?_, ?_⟩ <;> with_unfolding_all decide

/-- C3 witness. -/
theorem cycle_level_isolation_witness :
    processTriples envX [t1x, t2x] sysX =
      (sysX, [⟨"u", "2330", 158, 100, Direction.up, true⟩], some "KeyError") ∧
    runCycles [envX] sysX = runCycles [] (runCycle envX sysX).1 :=
  cycle_level_isolation envX t1x [t2x] sysX sysX
    [⟨"u", "2330", 158, 100, Direction.up, true⟩] "KeyError" []
    (by with_unfolding_all decide)

/-- C6 witness: price 158 crosses up from base 150; with a failing push the
store outcome is the same rebase to 158. -/
theorem rebase_unconditional_witness :
    evalTriple ⟨fun _ => some 158, fun _ _ => false⟩ sysA ("u", "2330", wsA) =
      (sysA', [⟨"u", "2330", 158, wsA.base_price, Direction.up, false⟩], none) ∧
    lookupEntry sysA' "u" "2330" = some ⟨158, 158 * (105 / 100), 158 * (95 / 100)⟩ :=
  rebase_unconditional_on_delivery ⟨fun _ => some 158, fun _ _ => true⟩ (fun _ _ => false)
    sysA sysA' ("u", "2330", wsA) 158 Direction.up
    [⟨"u", "2330", 158, wsA.base_price, Direction.up, true⟩] rfl
    (by with_unfolding_all decide) (by with_unfolding_all rfl)

/-- C8 witness: the state after one add is reachable and its entry is
derived with the strict ordering. -/
theorem reachable_thresholds_invariant_witness :
    wsA.up_threshold = wsA.base_price * (105 / 100) ∧
    wsA.down_threshold = wsA.base_price * (95 / 100) ∧
    (0 < wsA.base_price →
      wsA.down_threshold < wsA.base_price ∧ wsA.base_price < wsA.up_threshold) :=
  reachable_thresholds_invariant sysA "u" "2330" wsA
    (Reachable.add emptySys "u" "2330" 150 Reachable.init) (by with_unfolding_all rfl)

/-- C1 counterexample: the claim says EVERY mutation after the snapshot
leaves the snapshot contents unchanged. Deleting the entry ("u", "2330")
after taking the snapshot removes it from the inner dict the snapshot still
references, so the previously taken snapshot now dereferences to different
contents. -/
theorem snapshot_not_isolated_cex :
    snapshotContents (snapshot sysA) (removeWatch sysA "u" "2330").1.heap ≠
      snapshotContents (snapshot sysA) sysA.heap := by
  with_unfolding_all decide

/-- C1 witness: an add by a user absent from the snapshot leaves the
snapshot contents unchanged. -/
theorem snapshot_outer_copy_witness :
    snapshotContents (snapshot sysA) (addWatch sysA "v" "2603" 20).heap =
      snapshotContents (snapshot sysA) sysA.heap :=
  snapshot_outer_copy_fresh_user_unaffected sysA "v" "2603" 20
    (by with_unfolding_all decide) (by with_unfolding_all decide)

/-- C7 witness: end-to-end scenario 5 — an add attempt for 9999 with the
price source unavailable replies with the failure text and leaves the
store unchanged. -/
theorem add_unavailable_witness :
    handle_message ⟨fun _ => none⟩ sysA "u" "9999".data =
      (sysA, Reply.addFail "9999") ∧
    get_tw_stock_price (fun _ => none) FetchResult.exn = none ∧
    get_tw_stock_price (fun _ => none) (FetchResult.resp []) = none ∧
    get_tw_stock_price (fun _ => none) (FetchResult.resp (none :: [])) = none ∧
    get_tw_stock_price (fun _ => none) (FetchResult.resp (some "-" :: [])) = none ∧
    get_tw_stock_price (fun _ => none) (FetchResult.resp (some "0" :: [])) = none :=
  add_unavailable_atomic ⟨fun _ => none⟩ sysA "u" "9999".data (fun _ => none) []
    (by decide) rfl

/-- C9 witness: `del 2330` from "u" removes exactly ("u", "2330"); the
entry ("u", "2603") is looked up unchanged. -/
theorem delete_frame_witness :
    (handle_message ⟨fun _ => none⟩ sysA "u" "del 2330".data).1 =
      (removeWatch sysA "u" "2330").1 ∧
    lookupEntry (handle_message ⟨fun _ => none⟩ sysA "u" "del 2330".data).1 "u" "2603" =
      lookupEntry sysA "u" "2603" :=
  delete_frame_property ⟨fun _ => none⟩ sysA "u" "del 2330".data "2330".data "u" "2603"
    (by decide) (Or.inl (by decide)) (by decide) (Or.inr (by decide))

/-- C10 witness. -/
theorem del_usage_unreachable_witness :
    2 ≤ (pySplit (lowerText "del 2330".data)).length ∧
    (handle_message ⟨fun _ => none⟩ sysA "u" "del 2330".data).2 ≠ Reply.delUsage :=
  del_usage_unreachable ⟨fun _ => none⟩ sysA "u" "del 2330".data (Or.inl (by decide))

/-- C5 witness: base 100, thresholds 105 and 95; the boundary prices 105 and
95 trigger, the interior price 100 does not. -/
theorem crossing_closed_boundaries_witness :
    crossing 105 ⟨100, 105, 95⟩ = some Direction.up ∧
    crossing 95 ⟨100, 105, 95⟩ = some Direction.down ∧
    crossing 100 ⟨100, 105, 95⟩ = none :=
  ⟨(crossing_closed_boundaries ⟨100, 105, 95⟩ 105 (by norm_num) (by norm_num)
      (by norm_num)).1 (by norm_num),
   (crossing_closed_boundaries ⟨100, 105, 95⟩ 95 (by norm_num) (by norm_num)
      (by norm_num)).2.1 (by norm_num),
   (crossing_closed_boundaries ⟨100, 105, 95⟩ 100 (by norm_num) (by norm_num)
      (by norm_num)).2.2 (by norm_num) (by norm_num)⟩

end TWStockBot
